import Mathlib

/-!
Shallow embedding of `spool/spoolex.py` (the SPOOL blockchain explorer,
class `BlockchainSpider`), together with theorems checking the design
specification against it.

Modelling conventions:
* Python dicts for transactions/outputs become structures (`Tx`, `Vin`,
  `Vout`); the event dict appended by `history` becomes the `Event`
  structure with the same field names.
* Python exceptions become an `Except SpoolError` result.
  `InvalidTransactionError` is the class defined in `spoolex.py`;
  a bare `Exception` raise is modelled by `SpoolError.genericError`,
  a Python `IndexError` from out-of-bounds list indexing by
  `SpoolError.indexError`.  `SpoolError.unsupportedTransaction` is the
  `UnsupportedTransactionError` named by the specification's error
  taxonomy, included so that statements about it can be expressed.
* The external collaborators (the `Transactions` client and the
  `Spoolverb` codec, which `spoolex.py` imports) are not part of the
  embedded code: `history` is modelled over the per-transaction data the
  loop body extracts from them (`DecodedTx`), and `check_script` is
  parametrised by the codec functions it calls
  (`unhexlify` from `binascii`, and `actionOf`, standing for
  `Spoolverb.from_verb(payload).action`).
* Python's `set` of input addresses is modelled by `List.dedup`:
  only its cardinality and its unique element (when a singleton) are used.
* Timestamps are naturals; Python's `sorted(..., key=...)` — a stable
  sort ascending by the key — is modelled by `List.insertionSort` with
  the key comparison, which is also stable.
-/

namespace Spool

/-- A transaction input as consumed by `_get_addresses`: only the
`address` field is read. -/
structure Vin where
  address : String
deriving DecidableEq, Repr

/-- A transaction output: native output index `n`, recipient `address`,
and the raw script hex string `hex` (read by `check_script` and
`decode_op_return`). -/
structure Vout where
  n : Nat
  address : String
  hex : String
deriving DecidableEq, Repr

/-- Full transaction detail as consumed by `_get_addresses`. -/
structure Tx where
  txid : String
  vins : List Vin
  vouts : List Vout
  time : Nat
deriving DecidableEq, Repr

/-- Errors raised by the embedded code.
`invalidTransaction` is `InvalidTransactionError` from `spoolex.py`;
`genericError` is a bare Python `Exception`; `indexError` is a Python
`IndexError`.  `unsupportedTransaction` is the
`UnsupportedTransactionError` of the specification's taxonomy; the code
in `spoolex.py` defines no such class. -/
inductive SpoolError where
  | invalidTransaction (message : String)
  | unsupportedTransaction (message : String)
  | genericError (message : String)
  | indexError (message : String)
deriving DecidableEq, Repr

/-- The event record appended to the tree by `history`; field names match
the keys of the Python dict (line 104 of `spoolex.py`). -/
structure Event where
  txid : String
  verb : String
  from_address : String
  to_address : String
  piece_address : String
  timestamp_utc : Nat
  action : String
  number_editions : Nat
  edition_number : Nat
deriving DecidableEq, Repr

/-- The per-transaction data the `history` loop body obtains from the
external collaborators before the bucketing logic runs: `txid` and
`time` from the transaction source, `verb` from `check_script`,
`action`, `edition_number` and `num_editions` from
`Spoolverb.from_verb`, and the three addresses from `_get_addresses`. -/
structure DecodedTx where
  txid : String
  verb : String
  action : String
  edition_number : Nat
  num_editions : Nat
  from_address : String
  to_address : String
  piece_address : String
  time : Nat
deriving DecidableEq, Repr

/-- The history tree: `defaultdict(list)` keyed by edition number,
modelled as an association list with distinct keys in insertion order. -/
abbrev Tree := List (Nat × List Event)

/-- Dictionary read with a default: `tree.get(k, [])`. -/
def treeGet (tree : Tree) (k : Nat) : List Event :=
  (tree.lookup k).getD []

/-- `tree[k].append(e)` on a `defaultdict(list)`: appends to the bucket
of `k`, creating it (at the end, Python dicts keep insertion order) when
absent. -/
def treeAppend (tree : Tree) (k : Nat) (e : Event) : Tree :=
  if (tree.lookup k).isSome then
    tree.map fun p => if p.1 = k then (p.1, p.2 ++ [e]) else p
  else
    tree ++ [(k, [e])]

/-- The event dict built at lines 104-112 of `spoolex.py`, given the
current values of the loop-local `number_editions` and
`edition_number`. -/
def mkEvent (number_editions : Nat) (edition_number : Nat) (tx : DecodedTx) : Event :=
  { txid := tx.txid
    verb := tx.verb
    from_address := tx.from_address
    to_address := tx.to_address
    piece_address := tx.piece_address
    timestamp_utc := tx.time
    action := tx.action
    number_editions := number_editions
    edition_number := edition_number }

/-- The mutable state of the `history` loop: the tree under construction
and the running `number_editions`. -/
structure HState where
  tree : Tree
  number_editions : Nat
deriving DecidableEq, Repr

/-- One iteration of the `for tx in txs` loop of `history`
(lines 96-112): piece-level `EDITIONS` announcements keep bucket key 0
and update the running `number_editions`; every other action buckets by
its own `edition_number`. -/
def historyStep (s : HState) (tx : DecodedTx) : HState :=
  let edition_number := if tx.action ≠ "EDITIONS" then tx.edition_number else 0
  let number_editions := if tx.action ≠ "EDITIONS" then s.number_editions else tx.num_editions
  let ev := mkEvent number_editions edition_number tx
  { tree := treeAppend s.tree edition_number ev
    number_editions := number_editions }

/-- `BlockchainSpider.history`, over the decoded per-transaction data:
the accumulation loop followed by the back-fill pass (lines 116-117)
that overwrites every event's `number_editions` with the final running
value. -/
def history (txs : List DecodedTx) : Tree :=
  let s := txs.foldl historyStep ⟨[], 0⟩
  s.tree.map fun p => (p.1, p.2.map fun e => { e with number_editions := s.number_editions })

/-- The sort key of `chain`: `key=lambda d: d['timestamp_utc']`. -/
def tsLE (a b : Event) : Prop := a.timestamp_utc ≤ b.timestamp_utc

instance : DecidableRel tsLE := fun a b => Nat.decLe a.timestamp_utc b.timestamp_utc

instance : IsTotal Event tsLE := ⟨fun a b => Nat.le_total a.timestamp_utc b.timestamp_utc⟩

instance : IsTrans Event tsLE := ⟨fun _ _ _ => Nat.le_trans⟩

/-- `BlockchainSpider.chain`: the bucket of `edition_number` (absent key
defaults to the empty list) sorted ascending by `timestamp_utc`
(line 135). -/
def chain (tree : Tree) (edition_number : Nat) : List Event :=
  List.insertionSort tsLE (treeGet tree edition_number)

/-- `BlockchainSpider.strip_loan` (lines 151-154): pops trailing
elements while the last action is LOAN.  `chain[-1]` on an empty list
raises `IndexError`, modelled by `none`; popping never terminates the
loop by emptiness, so the error also fires when the whole chain is
loans. -/
def strip_loan (chain : List Event) : Option (List Event) :=
  match h : chain.getLast? with
  | none => none
  | some e =>
    if e.action = "LOAN" then strip_loan chain.dropLast
    else some chain
termination_by chain.length
decreasing_by
  have hne : chain ≠ [] := by
    intro hc
    rw [hc] at h
    simp at h
  have hpos : 0 < chain.length := List.length_pos.mpr hne
  simp [List.length_dropLast]
  omega

/-- State-passing model of the same loop viewed through the caller's
variable: in the Python code `chain.pop()` mutates, in place, the very
list object the caller passed in, and `return chain` returns that same
object.  The result is `(return value, final contents of the caller's
list)`; both components are the mutated list. -/
def strip_loan_py (chain : List Event) : Option (List Event × List Event) :=
  match h : chain.getLast? with
  | none => none
  | some e =>
    if e.action = "LOAN" then strip_loan_py chain.dropLast
    else some (chain, chain)
termination_by chain.length
decreasing_by
  have hne : chain ≠ [] := by
    intro hc
    rw [hc] at h
    simp at h
  have hpos : 0 < chain.length := List.length_pos.mpr hne
  simp [List.length_dropLast]
  omega

/-- `BlockchainSpider.decode_op_return` (line 182):
`binascii.unhexlify(op_return_hex[4:])`, with `unhexlify` (an external
library function) passed as a parameter. -/
def decode_op_return (unhexlify : String → String) (op_return_hex : String) : String :=
  unhexlify (op_return_hex.drop 4)

/-- `v['hex'].startswith('6a')`: the output's raw script begins with
the OP_RETURN data-push marker.  Written via `take` and string
equality, which is what `startswith` of a two-character literal
means. -/
def hexHasDataMarker (s : String) : Bool := s.take 2 == "6a"

/-- The `for` loop of `check_script` over the already reversed-and-
filtered candidate outputs: returns the payload of the first candidate
whose decoded action is supported, else falls through to
`raise Exception("Invalid ascribe transaction")`. -/
def check_script_loop (unhexlify actionOf : String → String)
    (supported_actions : List String) : List Vout → Except SpoolError String
  | [] => .error (.genericError "Invalid ascribe transaction")
  | vout :: rest =>
    let verb := decode_op_return unhexlify vout.hex
    if actionOf verb ∈ supported_actions then .ok verb
    else check_script_loop unhexlify actionOf supported_actions rest

/-- `BlockchainSpider.check_script` (lines 201-206): scan
`vouts[::-1]`, keeping outputs whose raw hex starts with the `6a`
data-push marker, and return the first payload decoding to a supported
action.  `actionOf` stands for `Spoolverb.from_verb(payload).action`
and `supported_actions` for `Spoolverb.supported_actions`. -/
def check_script (unhexlify actionOf : String → String)
    (supported_actions : List String) (vouts : List Vout) : Except SpoolError String :=
  check_script_loop unhexlify actionOf supported_actions
    (vouts.reverse.filter fun v => hexHasDataMarker v.hex)

/-- Recogniser for the specification's `UnsupportedTransactionError`,
used to state what `check_script` does NOT raise. -/
def isUnsupportedError : Except SpoolError String → Bool
  | .error (.unsupportedTransaction _) => true
  | _ => false

/-- The message of the `InvalidTransactionError` raised at line 226
(the Python code appends the formatted address set to it). -/
def invalid_sender_msg : String :=
  "Transaction should have inputs from only one address"

/-- The sort key of `_get_addresses`: `key=lambda d: d['n']`. -/
def voutLE (a b : Vout) : Prop := a.n ≤ b.n

instance : DecidableRel voutLE := fun a b => Nat.decLe a.n b.n

instance : IsTotal Vout voutLE := ⟨fun a b => Nat.le_total a.n b.n⟩

instance : IsTrans Vout voutLE := ⟨fun _ _ _ => Nat.le_trans⟩

/-- `sorted(tx['vouts'], key=lambda d: d['n'])[:-1]` (line 230): outputs
ascending by native index with the final (data) output dropped. -/
def remaining_vouts (tx : Tx) : List Vout :=
  (List.insertionSort voutLE tx.vouts).dropLast

/-- `BlockchainSpider._get_addresses` (lines 224-235): the distinct
input addresses must number exactly one, then
`(from, to, piece) = (the unique input address, vouts[-1], vouts[0])`
over `remaining_vouts`; indexing an empty remainder raises
`IndexError`. -/
def get_addresses (tx : Tx) : Except SpoolError (String × String × String) :=
  let from_address := (tx.vins.map Vin.address).dedup
  if from_address.length ≠ 1 then
    .error (.invalidTransaction invalid_sender_msg)
  else
    match (remaining_vouts tx).head?, (remaining_vouts tx).getLast? with
    | some v0, some vl => .ok (from_address.headD "", vl.address, v0.address)
    | _, _ => .error (.indexError "list index out of range")

/-- Spec-style companion of `strip_loan` (design note: "drop trailing
run matching predicate" on an immutable sequence): removes the maximal
trailing run of LOAN events. -/
def dropTrailingLoans (c : List Event) : List Event :=
  (c.reverse.dropWhile fun e => e.action == "LOAN").reverse

/-! ## Example fixtures used by witnesses and counterexamples -/

/-- Example: a decoded REGISTER of edition 1. -/
def exRegTx : DecodedTx := ⟨"t1", "v1", "REGISTER", 1, 0, "a", "b", "p", 10⟩

/-- Example: a decoded EDITIONS announcement of 5 editions. -/
def exEdTx : DecodedTx := ⟨"t2", "v2", "EDITIONS", 0, 5, "a", "a", "p", 20⟩

/-- Example input to `history`. -/
def exTxs : List DecodedTx := [exRegTx, exEdTx]

/-- Example input to `history` with no EDITIONS announcement. -/
def exTxsNoEd : List DecodedTx := [exRegTx]

/-- The empty loop state. -/
def exS : HState := ⟨[], 0⟩

/-- Example transaction with two distinct input addresses. -/
def exMultiTx : Tx := ⟨"tm", [⟨"a"⟩, ⟨"b"⟩], [⟨0, "p", "00"⟩, ⟨1, "q", "6a00"⟩], 5⟩

/-- Example transaction with one sender and three outputs (content,
recipient, data). -/
def exGoodTx : Tx := ⟨"tg", [⟨"a"⟩, ⟨"a"⟩], [⟨1, "q", "00"⟩, ⟨0, "p", "01"⟩, ⟨2, "r", "6a00"⟩], 5⟩

/-- Example transaction with one sender but a single output. -/
def exSmallTx : Tx := ⟨"ts", [⟨"a"⟩], [⟨0, "p", "6a00"⟩], 5⟩

/-- Concrete codec stand-in for counterexamples: the identity on
strings, playing both `unhexlify` and `actionOf`. -/
def exId : String → String := fun s => s

/-- Example output list whose single data-carrying output decodes to an
unsupported action. -/
def exBadVouts : List Vout := [⟨0, "x", "6a00LOANX"⟩]

/-- Example REGISTER event. -/
def exRegEv : Event := ⟨"t1", "v1", "a", "b", "p", 10, "REGISTER", 5, 1⟩

/-- Example LOAN event. -/
def exLoanEv : Event := ⟨"t4", "v4", "b", "c", "p", 40, "LOAN", 5, 1⟩

/-- Example chain ending in a loan. -/
def exChain2 : List Event := [exRegEv, exLoanEv]

/-- `exChain2` with its trailing loan stripped. -/
def exStripped2 : List Event := [exRegEv]

/-- Example tree with a single bucket, for edition 1. -/
def exTree : Tree := [(1, [exLoanEv, exRegEv])]

/-! ## Helper lemmas -/

/-- Appending to a bucket changes exactly that bucket's contents, by one
appended element. -/
theorem treeGet_treeAppend_self (tree : Tree) (k : Nat) (e : Event) :
    treeGet (treeAppend tree k e) k = treeGet tree k ++ [e] := by
  induction tree with
  | nil => simp [treeAppend, treeGet]
  | cons p t ih =>
    obtain ⟨k', l⟩ := p
    by_cases hk : k' = k
    · subst hk
      simp [treeAppend, treeGet, List.lookup_cons]
    · have hbe : (k == k') = false := beq_eq_false_iff_ne.mpr fun h => hk h.symm
      cases hs : (t.lookup k).isSome with
      | true =>
        have h1 : (((k', l) :: t).lookup k).isSome := by
          simp [List.lookup_cons, hbe, hs]
        rw [treeAppend, if_pos h1]
        rw [treeAppend, if_pos hs] at ih
        simp only [List.map_cons]
        rw [show (if (k', l).1 = k then ((k', l).1, (k', l).2 ++ [e]) else (k', l)) = (k', l) from
          if_neg hk]
        simpa [treeGet, List.lookup_cons, hbe] using ih
      | false =>
        have h1 : ¬ (((k', l) :: t).lookup k).isSome := by
          simp [List.lookup_cons, hbe, hs]
        rw [treeAppend, if_neg h1]
        rw [treeAppend, if_neg (by simp [hs])] at ih
        simpa [treeGet, List.lookup_cons, hbe] using ih

/-! ## History-loop helper lemmas -/

/-- The running `number_editions` after the loop is the announcement of
the LAST EDITIONS transaction processed, or the initial value when none
occurs. -/
theorem foldl_number_editions (txs : List DecodedTx) (s : HState) :
    (txs.foldl historyStep s).number_editions =
      ((txs.filter fun t => t.action == "EDITIONS").map DecodedTx.num_editions).getLastD
        s.number_editions := by
  induction txs generalizing s with
  | nil => rfl
  | cons tx rest ih =>
    by_cases h : tx.action = "EDITIONS"
    · simp only [List.foldl_cons, List.filter_cons]
      rw [if_pos (by simp [h])]
      simp only [List.map_cons, List.getLastD_cons]
      rw [ih]
      congr 1
      simp [historyStep, h]
    · simp only [List.foldl_cons, List.filter_cons]
      rw [if_neg (by simp [h])]
      rw [ih]
      congr 1
      simp [historyStep, h]

/-- Every event of the returned tree carries the final running
`number_editions` (the back-fill pass is total). -/
theorem history_mem_number_editions (txs : List DecodedTx) (p : Nat × List Event)
    (hp : p ∈ history txs) (e : Event) (he : e ∈ p.2) :
    e.number_editions = (txs.foldl historyStep ⟨[], 0⟩).number_editions := by
  simp only [history, List.mem_map] at hp
  obtain ⟨q, hq, rfl⟩ := hp
  simp only [List.mem_map] at he
  obtain ⟨f, hf, rfl⟩ := he
  rfl

/-! ## strip_loan helper lemmas -/

/-- One-step unfolding of `strip_loan`. -/
theorem strip_loan_unfold (c : List Event) :
    strip_loan c = match c.getLast? with
      | none => none
      | some e => if e.action = "LOAN" then strip_loan c.dropLast else some c := by
  rw [strip_loan]
  cases c.getLast? <;> rfl

/-- One-step unfolding of `strip_loan_py`. -/
theorem strip_loan_py_unfold (c : List Event) :
    strip_loan_py c = match c.getLast? with
      | none => none
      | some e => if e.action = "LOAN" then strip_loan_py c.dropLast else some (c, c) := by
  rw [strip_loan_py]
  cases c.getLast? <;> rfl

/-- On success, the stripped chain ends in a non-LOAN event (in
particular it is non-empty). -/
theorem strip_loan_last (c : List Event) :
    ∀ r, strip_loan c = some r → ∃ e, r.getLast? = some e ∧ e.action ≠ "LOAN" := by
  induction c using strip_loan.induct with
  | case1 c hnone =>
    intro r hr
    rw [strip_loan_unfold, hnone] at hr
    cases hr
  | case2 c e hlast hloan ih =>
    intro r hr
    rw [strip_loan_unfold, hlast] at hr
    replace hr : (if e.action = "LOAN" then strip_loan c.dropLast else some c) = some r := hr
    rw [if_pos hloan] at hr
    exact ih r hr
  | case3 c e hlast hloan =>
    intro r hr
    rw [strip_loan_unfold, hlast] at hr
    replace hr : (if e.action = "LOAN" then strip_loan c.dropLast else some c) = some r := hr
    rw [if_neg hloan] at hr
    injection hr with hcr
    subst hcr
    exact ⟨e, hlast, hloan⟩

/-- On success, the input is the result followed by a run of LOAN
events. -/
theorem strip_loan_decomp (c : List Event) :
    ∀ r, strip_loan c = some r → ∃ t, c = r ++ t ∧ ∀ e ∈ t, e.action = "LOAN" := by
  induction c using strip_loan.induct with
  | case1 c hnone =>
    intro r hr
    rw [strip_loan_unfold, hnone] at hr
    cases hr
  | case2 c e hlast hloan ih =>
    intro r hr
    rw [strip_loan_unfold, hlast] at hr
    replace hr : (if e.action = "LOAN" then strip_loan c.dropLast else some c) = some r := hr
    rw [if_pos hloan] at hr
    obtain ⟨t, hct, hall⟩ := ih r hr
    have hne : c ≠ [] := by
      intro h
      rw [h] at hlast
      cases hlast
    have hgl : c.getLast hne = e := by
      have h2 := List.getLast?_eq_getLast c hne
      rw [h2] at hlast
      exact Option.some.inj hlast
    refine ⟨t ++ [e], ?_, ?_⟩
    · rw [← List.append_assoc, ← hct, ← hgl]
      exact (List.dropLast_append_getLast hne).symm
    · intro x hx
      rcases List.mem_append.mp hx with hx | hx
      · exact hall x hx
      · rw [List.mem_singleton.mp hx]
        exact hloan
  | case3 c e hlast hloan =>
    intro r hr
    rw [strip_loan_unfold, hlast] at hr
    replace hr : (if e.action = "LOAN" then strip_loan c.dropLast else some c) = some r := hr
    rw [if_neg hloan] at hr
    injection hr with hcr
    subst hcr
    exact ⟨[], by simp, by simp⟩

/-- A chain that is a non-LOAN-ended prefix followed by a LOAN run has
that prefix as its `dropTrailingLoans`. -/
theorem dropTrailingLoans_of_decomp (r t : List Event) (e : Event)
    (hall : ∀ x ∈ t, x.action = "LOAN")
    (he : r.getLast? = some e) (hne : e.action ≠ "LOAN") :
    dropTrailingLoans (r ++ t) = r := by
  have hrev : (r ++ t).reverse = t.reverse ++ r.reverse := by
    rw [List.reverse_append]
  rw [dropTrailingLoans, hrev]
  rw [List.dropWhile_append]
  have h1 : (t.reverse.dropWhile fun x => x.action == "LOAN") = [] := by
    rw [List.dropWhile_eq_nil_iff]
    intro x hx
    simp [hall x (List.mem_reverse.mp hx)]
  rw [h1]
  simp only [List.isEmpty_nil, if_pos]
  have hrrev : r.reverse.head? = some e := by
    rw [List.head?_reverse]
    exact he
  obtain ⟨rest, hrest⟩ : ∃ rest, r.reverse = e :: rest := by
    cases hr : r.reverse with
    | nil =>
      rw [hr] at hrrev
      cases hrrev
    | cons x xs =>
      rw [hr] at hrrev
      injection hrrev with hx
      exact ⟨xs, by rw [hx]⟩
  rw [hrest]
  rw [List.dropWhile_cons_of_neg (by simp [hne])]
  rw [← hrest, List.reverse_reverse]

/-! ## Claim theorems -/

/-- C1: after `history` returns, every event in every bucket has its
`number_editions` equal to the total announced by the (unique) EDITIONS
event, and equal to 0 when no EDITIONS event occurs in the set. -/
theorem history_backfill_uniform (txs : List DecodedTx) :
    (∀ a, txs.filter (fun t => t.action == "EDITIONS") = [a] →
      ∀ p ∈ history txs, ∀ e ∈ p.2, e.number_editions = a.num_editions) ∧
    (txs.filter (fun t => t.action == "EDITIONS") = [] →
      ∀ p ∈ history txs, ∀ e ∈ p.2, e.number_editions = 0) := by
  constructor
  · intro a ha p hp e he
    rw [history_mem_number_editions txs p hp e he, foldl_number_editions, ha]
    rfl
  · intro ha p hp e he
    rw [history_mem_number_editions txs p hp e he, foldl_number_editions, ha]
    rfl

/-- Witness for C1: on `exTxs` (one EDITIONS announcing 5), the
back-filled REGISTER event carries 5; on `exTxsNoEd` it carries 0. -/
theorem history_backfill_uniform_witness :
    (exTxs.filter (fun t => t.action == "EDITIONS") = [exEdTx] ∧
      (mkEvent 5 1 exRegTx).number_editions = 5) ∧
    (exTxsNoEd.filter (fun t => t.action == "EDITIONS") = [] ∧
      (mkEvent 0 1 exRegTx).number_editions = 0) := by
  refine ⟨⟨by decide, ?_⟩, ⟨by decide, ?_⟩⟩
  · exact (history_backfill_uniform exTxs).1 exEdTx (by decide)
      (1, [mkEvent 5 1 exRegTx]) (by decide) (mkEvent 5 1 exRegTx) (by decide)
  · exact (history_backfill_uniform exTxsNoEd).2 (by decide)
      (1, [mkEvent 0 1 exRegTx]) (by decide) (mkEvent 0 1 exRegTx) (by decide)

/-- C2: one loop iteration appends the event under bucket key 0 when the
action is the EDITIONS announcement (recording the announced total as
the running piece-wide total), and under the event's own decoded
`edition_number` otherwise. -/
theorem historyStep_bucket (s : HState) (tx : DecodedTx) :
    (tx.action = "EDITIONS" →
      treeGet (historyStep s tx).tree 0
          = treeGet s.tree 0 ++ [mkEvent tx.num_editions 0 tx] ∧
        (historyStep s tx).number_editions = tx.num_editions) ∧
    (tx.action ≠ "EDITIONS" →
      treeGet (historyStep s tx).tree tx.edition_number
          = treeGet s.tree tx.edition_number
              ++ [mkEvent s.number_editions tx.edition_number tx]) := by
  constructor
  · intro h
    constructor
    · simp only [historyStep, h]
      simp [treeGet_treeAppend_self]
    · simp [historyStep, h]
  · intro h
    simp only [historyStep]
    simp only [if_pos h]
    exact treeGet_treeAppend_self s.tree tx.edition_number _

/-- Witness for C2: both branches at concrete inputs. -/
theorem historyStep_bucket_witness :
    (exEdTx.action = "EDITIONS" ∧
      (treeGet (historyStep exS exEdTx).tree 0
          = treeGet exS.tree 0 ++ [mkEvent exEdTx.num_editions 0 exEdTx] ∧
        (historyStep exS exEdTx).number_editions = exEdTx.num_editions)) ∧
    (exRegTx.action ≠ "EDITIONS" ∧
      treeGet (historyStep exS exRegTx).tree exRegTx.edition_number
          = treeGet exS.tree exRegTx.edition_number
              ++ [mkEvent exS.number_editions exRegTx.edition_number exRegTx]) := by
  refine ⟨⟨by decide, (historyStep_bucket exS exEdTx).1 (by decide)⟩,
    ⟨by decide, (historyStep_bucket exS exRegTx).2 (by decide)⟩⟩

/-- C3: `_get_addresses` fails with `InvalidTransactionError` whenever
the inputs carry more than one distinct sender address, and succeeds
only when the set of distinct input addresses has size exactly 1. -/
theorem get_addresses_single_sender (tx : Tx) :
    (2 ≤ ((tx.vins.map Vin.address).dedup).length →
      get_addresses tx = .error (.invalidTransaction invalid_sender_msg)) ∧
    (∀ r, get_addresses tx = .ok r → ((tx.vins.map Vin.address).dedup).length = 1) := by
  constructor
  · intro h
    simp only [get_addresses]
    rw [if_pos (by omega)]
  · intro r hr
    by_contra hne
    simp only [get_addresses] at hr
    rw [if_pos hne] at hr
    cases hr

/-- Witness for C3 at `exMultiTx`. -/
theorem get_addresses_single_sender_witness :
    2 ≤ ((exMultiTx.vins.map Vin.address).dedup).length ∧
      get_addresses exMultiTx = .error (.invalidTransaction invalid_sender_msg) :=
  ⟨by decide, (get_addresses_single_sender exMultiTx).1 (by decide)⟩

/-- C4: with a single distinct sender and at least two outputs,
`_get_addresses` succeeds; after sorting the outputs ascending by index
and dropping the last, `piece_address` is the first remaining output's
address and `to_address` the last remaining one's; with exactly one
remaining output the two coincide. -/
theorem get_addresses_roles (tx : Tx) (d : Vout)
    (h1 : ((tx.vins.map Vin.address).dedup).length = 1)
    (h2 : 2 ≤ tx.vouts.length) :
    get_addresses tx = .ok (((tx.vins.map Vin.address).dedup).headD "",
        ((remaining_vouts tx).getLastD d).address,
        ((remaining_vouts tx).headD d).address) ∧
    (tx.vouts.length = 2 →
      (remaining_vouts tx).headD d = (remaining_vouts tx).getLastD d) := by
  have hlen : (remaining_vouts tx).length = tx.vouts.length - 1 := by
    simp [remaining_vouts, List.length_insertionSort]
  have hne : remaining_vouts tx ≠ [] := by
    intro h
    rw [h] at hlen
    simp at hlen
    omega
  constructor
  · simp only [get_addresses]
    rw [if_neg (by omega)]
    simp only [List.headD_eq_head?, List.getLastD_eq_getLast?]
    rw [List.head?_eq_head hne, List.getLast?_eq_getLast _ hne]
    rfl
  · intro h2eq
    have : (remaining_vouts tx).length = 1 := by omega
    obtain ⟨a, ha⟩ := List.length_eq_one.mp this
    rw [ha]
    rfl

/-- Witness for C4 at `exGoodTx` (and, for the coincidence clause, at a
two-output transaction). -/
theorem get_addresses_roles_witness :
    (((exGoodTx.vins.map Vin.address).dedup).length = 1 ∧ 2 ≤ exGoodTx.vouts.length) ∧
      get_addresses exGoodTx = .ok ("a", "q", "p") := by
  refine ⟨⟨by decide, by decide⟩, ?_⟩
  have h := (get_addresses_roles exGoodTx ⟨0, "", ""⟩ (by decide) (by decide)).1
  exact h.trans (by rfl)

/-- C10: with a single distinct sender address but fewer than two
outputs, dropping the final output leaves nothing and the unguarded
`vouts[0]` indexing raises `IndexError`. -/
theorem get_addresses_index_error (tx : Tx)
    (h1 : ((tx.vins.map Vin.address).dedup).length = 1)
    (h2 : tx.vouts.length < 2) :
    get_addresses tx = .error (.indexError "list index out of range") := by
  have hlen : (remaining_vouts tx).length = tx.vouts.length - 1 := by
    simp [remaining_vouts, List.length_insertionSort]
  have hnil : remaining_vouts tx = [] := by
    have : (remaining_vouts tx).length = 0 := by omega
    exact List.length_eq_zero.mp this
  simp only [get_addresses]
  rw [if_neg (by omega), hnil]
  rfl

/-- Witness for C10 at `exSmallTx` (one sender, one output). -/
theorem get_addresses_index_error_witness :
    (((exSmallTx.vins.map Vin.address).dedup).length = 1 ∧ exSmallTx.vouts.length < 2) ∧
      get_addresses exSmallTx = .error (.indexError "list index out of range") :=
  ⟨⟨by decide, by decide⟩, get_addresses_index_error exSmallTx (by decide) (by decide)⟩

/-- Characterisation of the scanning loop: it returns the decoded
payload of the first candidate whose action is supported, and the bare
`Exception` otherwise. -/
theorem check_script_loop_spec (u a : String → String) (supp : List String) (l : List Vout) :
    check_script_loop u a supp l =
      match (l.filter fun v => decide (a (decode_op_return u v.hex) ∈ supp)).head? with
      | some v => .ok (decode_op_return u v.hex)
      | none => .error (.genericError "Invalid ascribe transaction") := by
  induction l with
  | nil => rfl
  | cons v rest ih =>
    by_cases hv : a (decode_op_return u v.hex) ∈ supp
    · simp [check_script_loop, hv]
    · simp only [check_script_loop]
      rw [if_neg hv, ih]
      simp [hv]

/-- C5 (amended): `check_script` scans the outputs in reverse order,
keeps those whose raw hex starts with the `6a` marker, and returns the
payload of the first one decoding to a supported action; when none
does, it raises the bare Python `Exception("Invalid ascribe
transaction")` (the code defines no `UnsupportedTransactionError`). -/
theorem check_script_first_match (u a : String → String) (supp : List String)
    (vouts : List Vout) :
    check_script u a supp vouts =
      match ((vouts.reverse.filter fun v => hexHasDataMarker v.hex).filter
          fun v => decide (a (decode_op_return u v.hex) ∈ supp)).head? with
      | some v => .ok (decode_op_return u v.hex)
      | none => .error (.genericError "Invalid ascribe transaction") :=
  check_script_loop_spec u a supp _

/-- Counterexample to C5 as stated: with no qualifying output decoding
to a supported action, `check_script` raises the bare
`Exception("Invalid ascribe transaction")`, not the specification's
`UnsupportedTransactionError`. -/
theorem check_script_error_not_unsupported :
    check_script exId exId ["REGISTER"] exBadVouts
        = .error (.genericError "Invalid ascribe transaction") ∧
      isUnsupportedError (check_script exId exId ["REGISTER"] exBadVouts) = false :=
  ⟨rfl, rfl⟩

/-- C6: `chain` returns the bucket sorted non-decreasing by timestamp,
and an absent edition number yields the empty chain, not an error. -/
theorem chain_sorted_or_empty (tree : Tree) (edition_number : Nat) :
    List.Sorted tsLE (chain tree edition_number) ∧
    (tree.lookup edition_number = none → chain tree edition_number = []) := by
  constructor
  · exact List.sorted_insertionSort tsLE (treeGet tree edition_number)
  · intro h
    simp [chain, treeGet, h]

/-- Witness for C6: edition 7 is absent from `exTree`. -/
theorem chain_sorted_or_empty_witness :
    exTree.lookup 7 = none ∧ chain exTree 7 = [] :=
  ⟨by decide, (chain_sorted_or_empty exTree 7).2 (by decide)⟩

/-- C7: whenever `strip_loan` succeeds, the result has no LOAN action
in last position (vacuously so were it empty), and is exactly the input
minus its maximal trailing run of LOAN events. -/
theorem strip_loan_no_trailing_loan (c r : List Event) (h : strip_loan c = some r) :
    (∀ e, r.getLast? = some e → e.action ≠ "LOAN") ∧ r = dropTrailingLoans c := by
  obtain ⟨e, he, hne⟩ := strip_loan_last c r h
  obtain ⟨t, hct, hall⟩ := strip_loan_decomp c r h
  constructor
  · intro e2 he2
    rw [he] at he2
    rw [← Option.some.inj he2]
    exact hne
  · rw [hct]
    exact (dropTrailingLoans_of_decomp r t e hall he hne).symm

/-- Witness for C7 on the concrete chain `[REGISTER, LOAN]`. -/
theorem strip_loan_no_trailing_loan_witness :
    strip_loan exChain2 = some exStripped2 ∧ exRegEv.action ≠ "LOAN" := by
  have hc : strip_loan exChain2 = some exStripped2 := by
    rw [strip_loan_unfold, strip_loan_unfold]
    rfl
  refine ⟨hc, ?_⟩
  exact (strip_loan_no_trailing_loan exChain2 exStripped2 hc).1 exRegEv (by decide)

/-- C8: `strip_loan` is idempotent (an erroring chain errors again, via
`Option.bind`). -/
theorem strip_loan_idem (c : List Event) :
    (strip_loan c).bind strip_loan = strip_loan c := by
  cases h : strip_loan c with
  | none => rfl
  | some r =>
    obtain ⟨e, he, hne⟩ := strip_loan_last c r h
    have hr : strip_loan r = some r := by
      rw [strip_loan_unfold, he]
      show (if e.action = "LOAN" then strip_loan r.dropLast else some r) = some r
      rw [if_neg hne]
    simp [hr]

/-- `strip_loan_py` agrees with `strip_loan`: the caller-visible final
contents and the return value are both the stripped chain. -/
theorem strip_loan_py_eq (c : List Event) :
    strip_loan_py c = (strip_loan c).map fun r => (r, r) := by
  induction c using strip_loan_py.induct with
  | case1 c hnone =>
    rw [strip_loan_py_unfold, strip_loan_unfold, hnone]
    rfl
  | case2 c e hlast hloan ih =>
    rw [strip_loan_py_unfold, strip_loan_unfold, hlast]
    show (if e.action = "LOAN" then strip_loan_py c.dropLast else some (c, c))
        = ((if e.action = "LOAN" then strip_loan c.dropLast else some c).map fun r => (r, r))
    rw [if_pos hloan, if_pos hloan]
    exact ih
  | case3 c e hlast hloan =>
    rw [strip_loan_py_unfold, strip_loan_unfold, hlast]
    show (if e.action = "LOAN" then strip_loan_py c.dropLast else some (c, c))
        = ((if e.action = "LOAN" then strip_loan c.dropLast else some c).map fun r => (r, r))
    rw [if_neg hloan, if_neg hloan]
    rfl

/-- Counterexample to C9 as stated: `strip_loan([REGISTER, LOAN])`
succeeds, and afterwards the caller's list — the same object the loop
popped from — no longer contains the LOAN event, so the original chain
is mutated, not preserved. -/
theorem strip_loan_mutates_input :
    strip_loan_py exChain2 = some (exStripped2, exStripped2) ∧
      exLoanEv ∈ exChain2 ∧ exLoanEv ∉ exStripped2 := by
  refine ⟨?_, by decide, by decide⟩
  rw [strip_loan_py_unfold, strip_loan_py_unfold]
  rfl

/-- C9 (amended): `strip_loan` strips in place: on success the caller's
list afterwards equals the returned chain — the input minus its maximal
trailing LOAN run — rather than its original contents.  The tree itself
is unaffected, since `chain` hands the caller a freshly sorted list. -/
theorem strip_loan_py_in_place (c rv st : List Event)
    (h : strip_loan_py c = some (rv, st)) :
    st = rv ∧ rv = dropTrailingLoans c := by
  rw [strip_loan_py_eq] at h
  cases hs : strip_loan c with
  | none =>
    rw [hs] at h
    cases h
  | some r =>
    rw [hs] at h
    have h2 : (some (r, r) : Option (List Event × List Event)) = some (rv, st) := h
    have h3 := Option.some.inj h2
    have hrv : rv = r := (congrArg Prod.fst h3).symm
    have hst : st = r := (congrArg Prod.snd h3).symm
    refine ⟨hst.trans hrv.symm, ?_⟩
    obtain ⟨e, he, hne⟩ := strip_loan_last c r hs
    obtain ⟨t, hct, hall⟩ := strip_loan_decomp c r hs
    rw [hrv, hct]
    exact (dropTrailingLoans_of_decomp r t e hall he hne).symm

/-- Witness for C9's amended statement on `[REGISTER, LOAN]`. -/
theorem strip_loan_py_in_place_witness :
    strip_loan_py exChain2 = some (exStripped2, exStripped2) ∧
      exStripped2 = dropTrailingLoans exChain2 := by
  have hc : strip_loan_py exChain2 = some (exStripped2, exStripped2) := by
    rw [strip_loan_py_unfold, strip_loan_py_unfold]
    rfl
  exact ⟨hc, (strip_loan_py_in_place exChain2 exStripped2 exStripped2 hc).2⟩

end Spool
